import Mathlib

/-!
Verification development for the go-evaluator repository.

The Go package evaluates boolean query expressions against heterogeneous
records (pointers to structs, maps, ...).  This file gives a shallow
embedding of the evaluator core (`part_009` of the package sources), of the
textual query language (`parser/simple`), and of the JSON wire codec, and
proves or refutes the frozen claims about them.

Modelling conventions:
* Go dynamic values (`interface{}`) are modelled by the inductive `GoVal`.
  One representative is kept per reflection kind class: `vint` models the
  signed kinds (as produced by map records and the parser, i.e. Go `int`),
  `vuint` the unsigned kinds, `vfloat` Go `float64`.  `float64` is modelled
  as an exact rational number; IEEE-754 rounding is not modelled, which is
  faithful for the short decimal literals appearing in the theorems below
  (every such literal's shortest float64 representation has exactly the
  digits of the literal).
* Go strings are assumed ASCII (the lexer indexes bytes; on ASCII input
  byte indexing and rune indexing coincide).
* `reflect.DeepEqual` is modelled by decidable equality of `GoVal`.
  Width distinctions inside a kind class (e.g. `int8` vs `int`) are
  erased; no theorem depends on them.
* The `Getter` capability and the `Comparator` interface of the source are
  not exercised by any claim and are omitted from the record model.
-/

namespace GoEval

/-- Reflection kind classes used by the evaluator's dispatch. -/
inductive GoKind where
  | intK | uintK | floatK | stringK | boolK | interfaceK | sliceK | mapK | invalidK
deriving DecidableEq, Repr

/-- Exact decimal model of a `float64` value: `mant / 10 ^ fexp`.  Every
float value handled by the claims (decimal literals, converted integers)
is represented exactly; the representation is not normalised, and value
equality/ordering compare by cross-multiplication. -/
structure GoFloat where
  mant : Int
  fexp : Nat
deriving DecidableEq, Repr

/-- Value equality of two modelled floats (Go `==` on `float64`). -/
def floatEq (a b : GoFloat) : Bool :=
  a.mant * (10 : Int) ^ b.fexp == b.mant * (10 : Int) ^ a.fexp

/-- Three-way value comparison of two modelled floats. -/
def floatCmp (a b : GoFloat) : Int :=
  let x := a.mant * (10 : Int) ^ b.fexp
  let y := b.mant * (10 : Int) ^ a.fexp
  if x < y then -1 else if y < x then 1 else 0

/-- Truncation toward zero (a Go in-range `float64`-to-integer
conversion). -/
def floatTrunc (a : GoFloat) : Int := Int.tdiv a.mant ((10 : Int) ^ a.fexp)

/-- The modelled float of an integer (exact; Go rounds beyond 2^53, which
no theorem exercises). -/
def GoFloat.ofInt (n : Int) : GoFloat := ⟨n, 0⟩

/-- Model of Go dynamic values (`interface{}`) as they occur as field
contents and literal operands.  `vslice k none` is a nil slice of element
kind `k`, `vslice k (some xs)` a non-nil slice; `vmapv` likewise for
`map[string]interface{}` values (modelled as ordered association lists). -/
inductive GoVal where
  | vnull
  | vbool (b : Bool)
  | vint (n : Int)
  | vuint (n : Nat)
  | vfloat (q : GoFloat)
  | vstr (s : String)
  | vslice (elemKind : GoKind) (xs : Option (List GoVal))
  | vmapv (fs : Option (List (String × GoVal)))

mutual
/-- Model of `reflect.DeepEqual` restricted to the modelled value universe:
structural equality, type-sensitive (an `int` is never deeply equal to a
`float64` or to a string), nil-ness-sensitive for slices and maps.
Go map comparison is order-insensitive; the model compares association
lists positionally, which agrees on the (JSON-ordered) maps it builds. -/
def valEq : GoVal → GoVal → Bool
  | .vnull, .vnull => true
  | .vbool a, .vbool b => a == b
  | .vint a, .vint b => a == b
  | .vuint a, .vuint b => a == b
  | .vfloat a, .vfloat b => floatEq a b
  | .vstr a, .vstr b => a == b
  | .vslice k none, .vslice k' none => k == k'
  | .vslice k (some xs), .vslice k' (some ys) => k == k' && valListEq xs ys
  | .vmapv none, .vmapv none => true
  | .vmapv (some fs), .vmapv (some gs) => valMapEq fs gs
  | _, _ => false

def valListEq : List GoVal → List GoVal → Bool
  | [], [] => true
  | x :: xs, y :: ys => valEq x y && valListEq xs ys
  | _, _ => false

def valMapEq : List (String × GoVal) → List (String × GoVal) → Bool
  | [], [] => true
  | (k, v) :: fs, (k', v') :: gs => k == k' && valEq v v' && valMapEq fs gs
  | _, _ => false
end

/-- Reflection kind of a dynamic value; `reflect.ValueOf(nil)` is invalid. -/
def kindOf : GoVal → GoKind
  | .vnull => .invalidK
  | .vbool _ => .boolK
  | .vint _ => .intK
  | .vuint _ => .uintK
  | .vfloat _ => .floatK
  | .vstr _ => .stringK
  | .vslice _ _ => .sliceK
  | .vmapv _ => .mapK

/-- Model of `strconv.ParseInt(s, 10, 64)`: optional sign, non-empty run of
decimal digits, 64-bit range check.  (Underscore separators are rejected
with an explicit base, as in Go.) -/
def parseGoInt (s : String) : Option Int :=
  let cs := s.toList
  let (neg, ds) : Bool × List Char :=
    match cs with
    | '-' :: rest => (true, rest)
    | '+' :: rest => (false, rest)
    | _ => (false, cs)
  if ds.isEmpty then none
  else if ds.all Char.isDigit then
    let n : Nat := ds.foldl (fun a c => a * 10 + (c.toNat - '0'.toNat)) 0
    let v : Int := if neg then -(n : Int) else (n : Int)
    if -(2 ^ 63) ≤ v ∧ v < 2 ^ 63 then some v else none
  else none

/-- Digits of a character list until a non-digit. -/
def takeDigits (cs : List Char) : List Char × List Char :=
  (cs.takeWhile Char.isDigit, cs.dropWhile Char.isDigit)

/-- Numeric value of a digit run. -/
def digitsVal (ds : List Char) : Nat :=
  ds.foldl (fun a c => a * 10 + (c.toNat - '0'.toNat)) 0

/-- Model of `strconv.ParseFloat(s, 64)` on decimal inputs, returning the
exact decimal value of the literal: optional sign, digits with an optional
dot (at least one digit overall), optional decimal exponent.  Go's `Inf`,
`NaN`, hexadecimal-float and underscore forms are not modelled; IEEE-754
rounding to binary64 is not modelled (see the file comment). -/
def parseGoFloat (s : String) : Option GoFloat :=
  let cs := s.toList
  let (neg, cs1) : Bool × List Char :=
    match cs with
    | '-' :: rest => (true, rest)
    | '+' :: rest => (false, rest)
    | _ => (false, cs)
  let (ip, rest1) := takeDigits cs1
  let (fp, rest2) : List Char × List Char :=
    match rest1 with
    | '.' :: r => takeDigits r
    | _ => ([], rest1)
  if ip.isEmpty ∧ fp.isEmpty then none
  else
    let md : Nat := digitsVal ip * 10 ^ fp.length + digitsVal fp
    let base : GoFloat := ⟨(md : Int), fp.length⟩
    let withExp : Option GoFloat :=
      match rest2 with
      | [] => some base
      | e :: r =>
        if e = 'e' ∨ e = 'E' then
          let (eneg, r1) : Bool × List Char :=
            match r with
            | '-' :: rr => (true, rr)
            | '+' :: rr => (false, rr)
            | _ => (false, r)
          let (eds, r2) := takeDigits r1
          if eds.isEmpty ∨ ¬r2.isEmpty then none
          else
            let ex := digitsVal eds
            some (if eneg then ⟨base.mant, base.fexp + ex⟩
                  else if ex ≤ base.fexp then ⟨base.mant, base.fexp - ex⟩
                  else ⟨base.mant * (10 : Int) ^ (ex - base.fexp), 0⟩)
        else none
    withExp.map (fun q => if neg then ⟨-q.mant, q.fexp⟩ else q)

/-- Count the multiplicity of `p` in `n` (fuel-bounded division loop). -/
def factorCount (p : Nat) : Nat → Nat → Nat
  | 0, _ => 0
  | Nat.succ fuel, n =>
    if n % p = 0 ∧ n ≠ 0 ∧ 1 < p then 1 + factorCount p fuel (n / p)
    else 0

/-- Repeat a character. -/
def charRun (c : Char) (n : Nat) : String := String.mk (List.replicate n c)

/-- Decimal digit string of a natural number. -/
def natDigits (n : Nat) : String := toString n

/-- Model of Go's shortest `%g` formatting (`fmt.Sprint` on a `float64`,
`strconv.FormatFloat(f, 'g', -1, 64)`) on the exact decimal model:
significant digits with trailing zeros stripped, fixed notation unless
the decimal exponent is below -4 or at least 21, in which case scientific
notation `d.ddde±XX` (two-digit minimum exponent) is used. -/
def formatGoFloat (q : GoFloat) : String :=
  if q.mant = 0 then "0"
  else
    let sign := if q.mant < 0 then "-" else ""
    let num := q.mant.natAbs
    let k := q.fexp
    let t := factorCount 10 num num
    let m := num / 10 ^ t
    let ds := natDigits m
    let nd := ds.length
    let dp : Int := (nd : Int) + (t : Int) - (k : Int)
    let ex : Int := dp - 1
    if ex < -4 ∨ 21 ≤ ex then
      let head := String.mk (ds.toList.take 1)
      let tail := String.mk (ds.toList.drop 1)
      let mantStr := if tail = "" then head else head ++ "." ++ tail
      let eAbs := ex.natAbs
      let eDigits := natDigits eAbs
      let eStr := if eDigits.length < 2 then "0" ++ eDigits else eDigits
      sign ++ mantStr ++ "e" ++ (if ex < 0 then "-" else "+") ++ eStr
    else if dp ≤ 0 then
      sign ++ "0." ++ charRun '0' (-dp).toNat ++ ds
    else if (nd : Int) ≤ dp then
      sign ++ ds ++ charRun '0' (dp - nd).toNat
    else
      sign ++ String.mk (ds.toList.take dp.toNat) ++ "." ++ String.mk (ds.toList.drop dp.toNat)

mutual
/-- Model of `stringValue` / `fmt.Sprint` on the modelled value universe.
Go `fmt` prints map keys in sorted order; the model prints association
lists in their stored order (no theorem inspects the textual form of a
map value). -/
def stringValue : GoVal → String
  | .vstr s => s
  | .vnull => "<nil>"
  | .vbool true => "true"
  | .vbool false => "false"
  | .vint n => toString n
  | .vuint n => toString n
  | .vfloat q => formatGoFloat q
  | .vslice _ none => "[]"
  | .vslice _ (some xs) => "[" ++ stringValueList xs ++ "]"
  | .vmapv none => "map[]"
  | .vmapv (some fs) => "map[" ++ stringValueMap fs ++ "]"

def stringValueList : List GoVal → String
  | [] => ""
  | [x] => stringValue x
  | x :: xs => stringValue x ++ " " ++ stringValueList xs

def stringValueMap : List (String × GoVal) → String
  | [] => ""
  | [(k, v)] => k ++ ":" ++ stringValue v
  | (k, v) :: fs => k ++ ":" ++ stringValue v ++ " " ++ stringValueMap fs
end

/-- Two's-complement wrap of an integer into the `int64` range, modelling a
Go conversion `int64(x)` from a wider value. -/
def wrapInt64 (n : Int) : Int := (n + 2 ^ 63) % 2 ^ 64 - 2 ^ 63

/-- Wrap of an integer into the `uint64` range, modelling `uint64(x)`. -/
def wrapUint64 (n : Int) : Nat := (n % 2 ^ 64).toNat


/-- Model of `numeric[int64]`: the signed branches are the identity (the
field side of a comparison arrives as `f.Int()`), `uint64` wraps,
`float64` and textual numbers truncate, every non-numeric kind fails. -/
def coerceInt64 : GoVal → Option Int
  | .vint n => some n
  | .vuint n => some (wrapInt64 n)
  | .vfloat q => some (floatTrunc q)
  | .vstr s => (parseGoFloat s).map floatTrunc
  | _ => none

/-- Model of `numeric[uint64]`. -/
def coerceUint64 : GoVal → Option Nat
  | .vint n => some (wrapUint64 n)
  | .vuint n => some n
  | .vfloat q => some (wrapUint64 (floatTrunc q))
  | .vstr s => (parseGoFloat s).map (fun q => wrapUint64 (floatTrunc q))
  | _ => none

/-- Model of `numeric[float64]`; integer-to-float conversion is exact in
the rational model (Go rounds beyond 2^53; no theorem depends on that). -/
def coerceFloat : GoVal → Option GoFloat
  | .vint n => some (GoFloat.ofInt n)
  | .vuint n => some (GoFloat.ofInt (n : Int))
  | .vfloat q => some q
  | .vstr s => parseGoFloat s
  | _ => none

/-- Model of an evaluation input (`interface{}` handed to `Evaluate`):
a struct passed by value, a non-nil pointer to a struct, a map value,
a non-nil pointer to a map, a nil pointer, or anything else. -/
inductive Inp where
  | structv (fs : List (String × GoVal))
  | ptrStruct (fs : List (String × GoVal))
  | mapv (fs : List (String × GoVal))
  | ptrMap (fs : List (String × GoVal))
  | nilPtr
  | other

/-- Model of `derefValue`: a non-nil pointer is dereferenced; a struct
passed by value is rejected (backward-compatible behaviour); the result
must be a struct or a map; everything else fails. -/
def derefValue : Inp → Option (List (String × GoVal))
  | .ptrStruct fs => some fs
  | .ptrMap fs => some fs
  | .mapv fs => some fs
  | .structv _ => none
  | .nilPtr => none
  | .other => none

/-- Model of `getField` on the dereferenced record: exact, case-sensitive
lookup by name (struct `FieldByName` / map key lookup; both collapse to an
association-list lookup; the `Getter` capability is not modelled). -/
def getField : List (String × GoVal) → String → Option GoVal
  | [], _ => none
  | (k, v) :: fs, n => if k = n then some v else getField fs n

/-- Field resolution as used by every leaf expression: dereference, then
look up; `none` is the "absent" outcome. -/
def resolveField (i : Inp) (name : String) : Option GoVal :=
  (derefValue i).bind (fun fs => getField fs name)

/-- Model of the `Function` interface. -/
structure Function where
  call : List GoVal → Except String GoVal

/-- Execution context: named functions and variables. -/
structure Context where
  Functions : List (String × Function)
  Variables : List (String × GoVal)

/-- A variadic option passed to `Evaluate`: a `*Context` or anything else. -/
inductive Opt where
  | ctx (c : Context)
  | otherOpt

/-- Model of `GetContext`: the first `*Context` among the options, or a
default empty context. -/
def GetContext : List Opt → Context
  | [] => ⟨[], []⟩
  | .ctx c :: _ => c
  | .otherOpt :: rest => GetContext rest

def lookupFn : List (String × Function) → String → Option Function
  | [], _ => none
  | (k, f) :: fs, n => if k = n then some f else lookupFn fs n

/-- ASCII lowering, modelling `strings.ToLower` / the case-insensitive
key matching of `encoding/json` on the ASCII strings that occur. -/
def lowerChar (c : Char) : Char :=
  if 65 ≤ c.toNat ∧ c.toNat ≤ 90 then Char.ofNat (c.toNat + 32) else c

def lowerStr (s : String) : String := String.mk (s.toList.map lowerChar)

/-- Model of `%q` in error messages (escaping elided; names in theorems
contain no characters needing escapes). -/
def goQuote (s : String) : String := "\"" ++ s ++ "\""

/-- Value-producing terms (`Term` interface): `Field`, `Constant`, and
`FunctionExpression` (the variants exercised by the claims). -/
inductive Term where
  | fieldT (name : String)
  | constT (v : GoVal)
  | funcT (name : String) (fn : Option Function) (args : List Term)

mutual
/-- Model of `Term.Evaluate` for the modelled variants.  `Field` errors on
an un-dereferenceable input or an absent field; `FunctionExpression`
resolves the function by name against the context registry (only for a
non-empty name), falls back to the bound reference, errors if neither,
then evaluates the arguments left to right and calls the function. -/
def evalTerm : Term → Inp → List Opt → Except String GoVal
  | .fieldT name, i, _ =>
    match derefValue i with
    | none => .error "cannot dereference value"
    | some fs =>
      match getField fs name with
      | none => .error ("field " ++ name ++ " not found")
      | some v => .ok v
  | .constT v, _, _ => .ok v
  | .funcT name fn args, i, opts =>
    let c := GetContext opts
    let fromCtx : Option Function := if name = "" then none else lookupFn c.Functions name
    let resolved : Option Function :=
      match fromCtx with
      | some f => some f
      | none => fn
    match resolved with
    | none => .error ("function " ++ goQuote name ++ " not found")
    | some f =>
      match evalTermArgs args i opts with
      | .error e => .error e
      | .ok as => f.call as

def evalTermArgs : List Term → Inp → List Opt → Except String (List GoVal)
  | [], _, _ => .ok []
  | t :: ts, i, opts =>
    match evalTerm t i opts with
    | .error e => .error e
    | .ok v =>
      match evalTermArgs ts i opts with
      | .error e => .error e
      | .ok vs => .ok (v :: vs)
end

/-- Byte-wise lexical string comparison (`strings.Compare`); on UTF-8
text, byte order and code-point order agree, and inputs are ASCII. -/
def charListCmp : List Char → List Char → Int
  | [], [] => 0
  | [], _ :: _ => -1
  | _ :: _, [] => 1
  | a :: as, b :: bs =>
    if a.toNat < b.toNat then -1 else if b.toNat < a.toNat then 1 else charListCmp as bs

def goStrCompare (s t : String) : Int := charListCmp s.toList t.toList

/-- Model of `strings.Contains`. -/
def goStrContains (s sub : String) : Bool :=
  s.toList.tails.any (fun t => sub.toList.isPrefixOf t)

/-- Model of `Compare`: numeric comparison when both sides coerce to
`float64`, otherwise lexical comparison of the textual forms.  (The
`Comparator` capability is not modelled; no modelled value implements
it.) -/
def compareVals (a b : GoVal) : Int :=
  match coerceFloat a with
  | some x =>
    match coerceFloat b with
    | some y => floatCmp x y
    | none => goStrCompare (stringValue a) (stringValue b)
  | none => goStrCompare (stringValue a) (stringValue b)

/-- Nil-reference test for the `Is` null special case: the field is a nil
interface, nil slice or nil map (the modelled kinds among
Ptr/Interface/Map/Slice). -/
def isNilRef : GoVal → Bool
  | .vnull => true
  | .vslice _ none => true
  | .vmapv none => true
  | _ => false

/-- Interface-nil test (`e.Value == nil`). -/
def isNullV : GoVal → Bool
  | .vnull => true
  | _ => false

/-- The four ordered-comparison operators. -/
inductive CmpOp where
  | gt | gte | lt | lte
deriving DecidableEq

def cmpOpInt : CmpOp → Int → Int → Bool
  | .gt, f, n => n < f
  | .gte, f, n => n ≤ f
  | .lt, f, n => f < n
  | .lte, f, n => f ≤ n

def cmpOpNat : CmpOp → Nat → Nat → Bool
  | .gt, f, n => n < f
  | .gte, f, n => n ≤ f
  | .lt, f, n => f < n
  | .lte, f, n => f ≤ n

def cmpOpFloat : CmpOp → GoFloat → GoFloat → Bool
  | .gt, f, n => 0 < floatCmp f n
  | .gte, f, n => 0 ≤ floatCmp f n
  | .lt, f, n => floatCmp f n < 0
  | .lte, f, n => floatCmp f n ≤ 0

def cmpOpOfCompare : CmpOp → Int → Bool
  | .gt, c => 0 < c
  | .gte, c => 0 ≤ c
  | .lt, c => c < 0
  | .lte, c => c ≤ 0

/-- Common body of the four ordered-comparison `Evaluate` methods
(`GreaterThanExpression` etc., which differ only in the operator): resolve
the field; dispatch on its kind; signed fields compare via
`numeric[int64]`, unsigned via `numeric[uint64]`, float via
`numeric[float64]`; string fields compare lexically against the operand
itself when textual, else against its `stringValue` form (the write-once
`sVal` cache stores exactly that string and is elided); any other kind or
a failed coercion yields false. -/
def orderedEval (op : CmpOp) (field : String) (value : GoVal) (i : Inp) : Bool :=
  match resolveField i field with
  | none => false
  | some f =>
    match f with
    | .vint n =>
      match coerceInt64 value with
      | none => false
      | some m => cmpOpInt op n m
    | .vuint n =>
      match coerceUint64 value with
      | none => false
      | some m => cmpOpNat op n m
    | .vfloat q =>
      match coerceFloat value with
      | none => false
      | some m => cmpOpFloat op q m
    | .vstr s =>
      match value with
      | .vstr t => cmpOpOfCompare op (goStrCompare s t)
      | _ => cmpOpOfCompare op (goStrCompare s (stringValue value))
    | _ => false

mutual
/-- Boolean expression tree: the eleven wire variants plus
`ComparisonExpression` (constructible but not serialisable). -/
inductive Expr where
  | isE (field : String) (value : GoVal)
  | isNotE (field : String) (value : GoVal)
  | containsE (field : String) (value : GoVal)
  | icontainsE (field : String) (value : GoVal)
  | andE (exprs : List Query)
  | orE (exprs : List Query)
  | notE (q : Query)
  | gtE (field : String) (value : GoVal)
  | gteE (field : String) (value : GoVal)
  | ltE (field : String) (value : GoVal)
  | lteE (field : String) (value : GoVal)
  | cmpE (lhs rhs : Term) (op : String)

/-- A `Query` wraps one optional `Expression`. -/
inductive Query where
  | mk (e : Option Expr)
end

/-- The expression carried by a query. -/
def Query.expr : Query → Option Expr
  | .mk e => e

mutual
/-- Model of `Expression.Evaluate` for every variant, by the source's
per-variant methods. -/
def evalExpr : Expr → Inp → List Opt → Except String Bool
  | .isE field value, i, _ =>
    match resolveField i field with
    | none => .ok false
    | some f =>
      if isNullV value && isNilRef f then .ok true
      else if valEq f value then .ok true
      else .ok (stringValue f == stringValue value)
  | .isNotE field value, i, _ =>
    match resolveField i field with
    | none => .ok false
    | some f => .ok (!valEq f value)
  | .containsE field value, i, _ =>
    match resolveField i field with
    | none => .ok false
    | some f =>
      match f with
      | .vstr s => .ok (goStrContains s (stringValue value))
      | .vslice ek xs =>
        if isNullV value then .ok false
        else if ek != kindOf value then .ok false
        else .ok ((xs.getD []).any (fun x => valEq x value))
      | _ => .ok false
  | .icontainsE field value, i, _ =>
    match resolveField i field with
    | none => .ok false
    | some f =>
      match f with
      | .vstr s => .ok (goStrContains (lowerStr s) (lowerStr (stringValue value)))
      | _ => .ok false
  | .andE qs, i, opts => evalAnd qs i opts
  | .orE qs, i, opts => evalOr qs i opts
  | .notE q, i, opts =>
    match evalQuery q i opts with
    | .error e => .error e
    | .ok b => .ok (!b)
  | .gtE field value, i, _ => .ok (orderedEval .gt field value i)
  | .gteE field value, i, _ => .ok (orderedEval .gte field value i)
  | .ltE field value, i, _ => .ok (orderedEval .lt field value i)
  | .lteE field value, i, _ => .ok (orderedEval .lte field value i)
  | .cmpE lhs rhs op, i, opts =>
    match evalTerm lhs i opts with
    | .error e => .error e
    | .ok a =>
      match evalTerm rhs i opts with
      | .error e => .error e
      | .ok b =>
        match op with
        | "eq" => .ok (compareVals a b == 0)
        | "neq" => .ok (compareVals a b != 0)
        | "gt" => .ok (decide (0 < compareVals a b))
        | "gte" => .ok (decide (0 ≤ compareVals a b))
        | "lt" => .ok (decide (compareVals a b < 0))
        | "lte" => .ok (decide (compareVals a b ≤ 0))
        | "contains" => .ok (goStrContains (stringValue a) (stringValue b))
        | "icontains" => .ok (goStrContains (lowerStr (stringValue a)) (lowerStr (stringValue b)))
        | _ => .ok false

/-- Model of `Query.Evaluate`: an empty query is vacuously false. -/
def evalQuery : Query → Inp → List Opt → Except String Bool
  | .mk none, _, _ => .ok false
  | .mk (some e), i, opts => evalExpr e i opts

/-- Model of `AndExpression.Evaluate`. -/
def evalAnd : List Query → Inp → List Opt → Except String Bool
  | [], _, _ => .ok true
  | q :: qs, i, opts =>
    match evalQuery q i opts with
    | .error e => .error e
    | .ok false => .ok false
    | .ok true => evalAnd qs i opts

/-- Model of `OrExpression.Evaluate`. -/
def evalOr : List Query → Inp → List Opt → Except String Bool
  | [], _, _ => .ok false
  | q :: qs, i, opts =>
    match evalQuery q i opts with
    | .error e => .error e
    | .ok true => .ok true
    | .ok false => evalOr qs i opts
end

/-! The textual query language (`parser/simple`): lexer, recursive-descent
parser and canonical stringifier.  The lexer and parser are written with an
explicit fuel argument standing in for Go's unbounded recursion; all
theorems apply them to concrete inputs with ample fuel. -/

inductive TokTy where
  | eofT | identT | stringT | numberT | andT | orT | notT | isT | isNotT
  | containsT | gtT | gteT | ltT | lteT | lparenT | rparenT
deriving DecidableEq

structure Tok where
  typ : TokTy
  val : String
deriving DecidableEq

/-- Model of `isDelim`: anything that is not a letter, digit or underscore
(`unicode.IsLetter` restricted to ASCII; lexer inputs are ASCII). -/
def isDelim (r : Char) : Bool := !(r.isAlpha || r.isDigit || r == '_')

/-- Keyword match: the keyword is a prefix and is followed by a delimiter
or the end of input. -/
def kwTest (kw : List Char) (cs : List Char) : Bool :=
  kw.isPrefixOf cs &&
    (match cs.drop kw.length with
     | [] => true
     | d :: _ => isDelim d)

def lexCons (t : Tok) : Except String (List Tok) → Except String (List Tok)
  | .error e => .error e
  | .ok ts => .ok (t :: ts)

/-- Model of `lex`, mirroring the Go switch order: whitespace; the keywords
`and`, `or`, `not`, `is not`, `is`, `contains` (each requiring a following
delimiter); the symbols `>=`, `<=`, `>`, `<`, `(`, `)`; a double-quoted
string taken verbatim (unterminated quote is an error); a numeric run of
digits/dots emitted as an identifier token; a bare identifier run; anything
else is a lexical error. -/
def lexGo : Nat → List Char → Except String (List Tok)
  | 0, _ => .error "lexer fuel exhausted"
  | _ + 1, [] => .ok [⟨.eofT, ""⟩]
  | fuel + 1, c :: rest =>
    let cs := c :: rest
    if c.isWhitespace then lexGo fuel rest
    else if kwTest "and".toList cs then
      lexCons ⟨.andT, "and"⟩ (lexGo fuel (cs.drop 3))
    else if kwTest "or".toList cs then
      lexCons ⟨.orT, "or"⟩ (lexGo fuel (cs.drop 2))
    else if kwTest "not".toList cs then
      lexCons ⟨.notT, "not"⟩ (lexGo fuel (cs.drop 3))
    else if kwTest "is not".toList cs then
      lexCons ⟨.isNotT, "is not"⟩ (lexGo fuel (cs.drop 6))
    else if kwTest "is".toList cs then
      lexCons ⟨.isT, "is"⟩ (lexGo fuel (cs.drop 2))
    else if kwTest "contains".toList cs then
      lexCons ⟨.containsT, "contains"⟩ (lexGo fuel (cs.drop 8))
    else if (">=".toList).isPrefixOf cs then
      lexCons ⟨.gteT, ">="⟩ (lexGo fuel (cs.drop 2))
    else if ("<=".toList).isPrefixOf cs then
      lexCons ⟨.lteT, "<="⟩ (lexGo fuel (cs.drop 2))
    else if c = '>' then
      lexCons ⟨.gtT, ">"⟩ (lexGo fuel rest)
    else if c = '<' then
      lexCons ⟨.ltT, "<"⟩ (lexGo fuel rest)
    else if c = '(' then
      lexCons ⟨.lparenT, "("⟩ (lexGo fuel rest)
    else if c = ')' then
      lexCons ⟨.rparenT, ")"⟩ (lexGo fuel rest)
    else if c = '"' then
      let inner := rest.takeWhile (fun ch => ch ≠ '"')
      if inner.length = rest.length then .error "unterminated string"
      else lexCons ⟨.stringT, String.mk inner⟩ (lexGo fuel (rest.drop (inner.length + 1)))
    else if c.isDigit || (c == '.' && (match rest with | d :: _ => d.isDigit | [] => false)) then
      let ds := cs.takeWhile (fun ch => ch.isDigit || ch == '.')
      lexCons ⟨.identT, String.mk ds⟩ (lexGo fuel (cs.drop ds.length))
    else
      let run := cs.takeWhile (fun ch => !ch.isWhitespace && !isDelim ch)
      if run.isEmpty then .error ("unexpected character " ++ goQuote (String.mk [c]))
      else lexCons ⟨.identT, String.mk run⟩ (lexGo fuel (cs.drop run.length))

def lex (input : String) : Except String (List Tok) :=
  lexGo (input.length + 1) input.toList

/-- Model of `tokenValue`: strings stay verbatim; bare identifiers are
auto-typed as boolean, 64-bit integer, float, or raw text in that order. -/
def tokenValue (t : Tok) : Except String GoVal :=
  match t.typ with
  | .stringT => .ok (.vstr t.val)
  | .numberT => .ok (.vstr t.val)
  | .identT =>
    if t.val = "true" then .ok (.vbool true)
    else if t.val = "false" then .ok (.vbool false)
    else
      match parseGoInt t.val with
      | some n => .ok (.vint n)
      | none =>
        match parseGoFloat t.val with
        | some q => .ok (.vfloat q)
        | none => .ok (.vstr t.val)
  | _ => .error "invalid value token"

/-- Token at a position; the lexer always appends an EOF sentinel, so an
out-of-range read (impossible on lexer output) reads as EOF. -/
def getTok (ts : List Tok) (pos : Nat) : Tok := ts.getD pos ⟨.eofT, ""⟩

/-- Model of `parseComparison`: IDENT, then an operator token, then a value
token, folded into the corresponding leaf expression. -/
def parseCompP (ts : List Tok) (pos : Nat) : Except String (Query × Nat) :=
  let t0 := getTok ts pos
  if t0.typ ≠ .identT then .error "expected identifier"
  else
    let field := t0.val
    let tok := getTok ts (pos + 1)
    let opOk := tok.typ = .isT ∨ tok.typ = .isNotT ∨ tok.typ = .containsT ∨
      tok.typ = .gtT ∨ tok.typ = .gteT ∨ tok.typ = .ltT ∨ tok.typ = .lteT
    if ¬opOk then .error ("unexpected operator " ++ goQuote tok.val)
    else
      let valTok := getTok ts (pos + 2)
      if valTok.typ ≠ .identT ∧ valTok.typ ≠ .stringT ∧ valTok.typ ≠ .numberT then
        .error "expected value"
      else
        match tokenValue valTok with
        | .error e => .error e
        | .ok v =>
          let e : Expr :=
            match tok.typ with
            | .isT => .isE field v
            | .isNotT => .isNotE field v
            | .containsT => .containsE field v
            | .gtT => .gtE field v
            | .gteT => .gteE field v
            | .ltT => .ltE field v
            | _ => .lteE field v
          .ok (Query.mk (some e), pos + 3)

mutual
/-- Model of `parseExpr`. -/
def parseExprP : Nat → List Tok → Nat → Except String (Query × Nat)
  | 0, _, _ => .error "parse fuel exhausted"
  | fuel + 1, ts, pos => parseOrP fuel ts pos
termination_by structural fuel => fuel

/-- Model of `parseOr` (the leading `parseAnd`). -/
def parseOrP : Nat → List Tok → Nat → Except String (Query × Nat)
  | 0, _, _ => .error "parse fuel exhausted"
  | fuel + 1, ts, pos =>
    match parseAndP fuel ts pos with
    | .error e => .error e
    | .ok (left, p) => parseOrLoop fuel left ts p
termination_by structural fuel => fuel

/-- The `or` folding loop of `parseOr`: strictly left-associative binary
nodes. -/
def parseOrLoop : Nat → Query → List Tok → Nat → Except String (Query × Nat)
  | 0, _, _, _ => .error "parse fuel exhausted"
  | fuel + 1, left, ts, pos =>
    if (getTok ts pos).typ = .orT then
      match parseAndP fuel ts (pos + 1) with
      | .error e => .error e
      | .ok (right, p) =>
        parseOrLoop fuel (Query.mk (some (.orE [left, right]))) ts p
    else .ok (left, pos)
termination_by structural fuel => fuel

/-- Model of `parseAnd` (the leading `parseUnary`). -/
def parseAndP : Nat → List Tok → Nat → Except String (Query × Nat)
  | 0, _, _ => .error "parse fuel exhausted"
  | fuel + 1, ts, pos =>
    match parseUnaryP fuel ts pos with
    | .error e => .error e
    | .ok (left, p) => parseAndLoop fuel left ts p
termination_by structural fuel => fuel

/-- The `and` folding loop of `parseAnd`. -/
def parseAndLoop : Nat → Query → List Tok → Nat → Except String (Query × Nat)
  | 0, _, _, _ => .error "parse fuel exhausted"
  | fuel + 1, left, ts, pos =>
    if (getTok ts pos).typ = .andT then
      match parseUnaryP fuel ts (pos + 1) with
      | .error e => .error e
      | .ok (right, p) =>
        parseAndLoop fuel (Query.mk (some (.andE [left, right]))) ts p
    else .ok (left, pos)
termination_by structural fuel => fuel

/-- Model of `parseUnary`: `not` binds tighter than `and`/`or`. -/
def parseUnaryP : Nat → List Tok → Nat → Except String (Query × Nat)
  | 0, _, _ => .error "parse fuel exhausted"
  | fuel + 1, ts, pos =>
    if (getTok ts pos).typ = .notT then
      match parseUnaryP fuel ts (pos + 1) with
      | .error e => .error e
      | .ok (q, p) => .ok (Query.mk (some (.notE q)), p)
    else parsePrimaryP fuel ts pos
termination_by structural fuel => fuel

/-- Model of `parsePrimary`: a parenthesised group or a comparison. -/
def parsePrimaryP : Nat → List Tok → Nat → Except String (Query × Nat)
  | 0, _, _ => .error "parse fuel exhausted"
  | fuel + 1, ts, pos =>
    if (getTok ts pos).typ = .lparenT then
      match parseExprP fuel ts (pos + 1) with
      | .error e => .error e
      | .ok (q, p) =>
        if (getTok ts p).typ ≠ .rparenT then .error "expected )"
        else .ok (q, p + 1)
    else parseCompP ts pos
termination_by structural fuel => fuel
end

/-- Model of `Parse`: lex, parse one expression, require EOF. -/
def Parse (input : String) : Except String Query :=
  match lex input with
  | .error e => .error e
  | .ok ts =>
    match parseExprP (5 * (ts.length + 1) + 5) ts 0 with
    | .error e => .error e
    | .ok (q, pos) =>
      if (getTok ts pos).typ ≠ .eofT then
        .error ("unexpected token " ++ goQuote (getTok ts pos).val)
      else .ok q

/-- Model of `valToString`: textual values print double-quoted; every
other kind prints in its `fmt.Sprint` form. -/
def valToString (v : GoVal) : String :=
  match v with
  | .vstr s => "\"" ++ s ++ "\""
  | _ => stringValue v

mutual
/-- Model of `stringifyExpr`; the default arm of the Go type switch
(unknown expression, nil child) prints as the empty string. -/
def stringifyExpr : Expr → String
  | .containsE f v => f ++ " contains " ++ valToString v
  | .isE f v => f ++ " is " ++ valToString v
  | .isNotE f v => f ++ " is not " ++ valToString v
  | .gtE f v => f ++ " > " ++ valToString v
  | .gteE f v => f ++ " >= " ++ valToString v
  | .ltE f v => f ++ " < " ++ valToString v
  | .lteE f v => f ++ " <= " ++ valToString v
  | .andE qs => "(" ++ stringifyList " and " qs ++ ")"
  | .orE qs => "(" ++ stringifyList " or " qs ++ ")"
  | .notE q => "not " ++ stringifyQ q
  | .icontainsE _ _ => ""
  | .cmpE _ _ _ => ""

def stringifyQ : Query → String
  | .mk none => ""
  | .mk (some e) => stringifyExpr e

def stringifyList (sep : String) : List Query → String
  | [] => ""
  | [q] => stringifyQ q
  | q :: qs => stringifyQ q ++ sep ++ stringifyList sep qs
end

/-- Model of `Stringify`. -/
def Stringify (q : Query) : String := stringifyQ q

/-! The JSON wire codec (`marshalExpression` / `unmarshalExpression` /
`Query.MarshalJSON` / `Query.UnmarshalJSON`).  JSON documents are modelled
as trees; objects are ordered field lists (Go's encoder emits struct
fields in declaration order, so encoding is deterministic).  Decoding
mirrors `encoding/json`: struct keys match exactly or case-insensitively,
later duplicate keys win, `null` is a no-op, numbers decode into
`interface{}` as `float64`. -/

inductive Json where
  | jnull
  | jbool (b : Bool)
  | jnum (q : GoFloat)
  | jstr (s : String)
  | jarr (xs : List Json)
  | jobj (fs : List (String × Json))

/-- Key matching of `encoding/json`: exact, else case-insensitive. -/
def keyMatches (field k : String) : Bool := k == field || lowerStr k == lowerStr field

/-- Last object entry matching a struct field name (later keys win). -/
def jfield (fs : List (String × Json)) (field : String) : Option Json :=
  fs.foldl (fun acc kv => if keyMatches field kv.1 then some kv.2 else acc) none

/-- Decoding of a `string`-typed struct field from object entries:
matching keys must carry strings (`null` is a no-op), later keys win. -/
def decStrField : List (String × Json) → String → String → Except String String
  | [], _, acc => .ok acc
  | (k, v) :: fs, name, acc =>
    if keyMatches name k then
      match v with
      | .jstr s => decStrField fs name s
      | .jnull => decStrField fs name acc
      | _ => .error ("cannot unmarshal value into field " ++ name)
    else decStrField fs name acc

mutual
/-- Decoding of JSON into `interface{}`: numbers become `float64`, arrays
become `[]interface{}`, objects become `map[string]interface{}`.  The
number case keeps the exact decimal; the program rounds it to binary64,
which agrees only on exactly-representable values — every round-trip
theorem below therefore restricts integer operands to magnitude at most
2^53 (see `jsonAtom`). -/
def decodeVal : Json → GoVal
  | .jnull => .vnull
  | .jbool b => .vbool b
  | .jnum q => .vfloat q
  | .jstr s => .vstr s
  | .jarr xs => .vslice .interfaceK (some (decodeValList xs))
  | .jobj fs => .vmapv (some (decodeValMap fs))

def decodeValList : List Json → List GoVal
  | [] => []
  | x :: xs => decodeVal x :: decodeValList xs

def decodeValMap : List (String × Json) → List (String × GoVal)
  | [] => []
  | (k, v) :: fs => (k, decodeVal v) :: decodeValMap fs
end

/-- Decoding of an `interface{}`-typed struct field: every matching key's
value decodes, later keys win. -/
def decValField : List (String × Json) → String → GoVal → GoVal
  | [], _, acc => acc
  | (k, v) :: fs, name, acc =>
    if keyMatches name k then decValField fs name (decodeVal v)
    else decValField fs name acc

/-- Model of the two-pass header read `json.Unmarshal(data, &struct{ Type
string })`: `null` input is a no-op leaving the zero value, a non-object
non-null input is a decode error. -/
def hdrType : Json → Except String String
  | .jnull => .ok ""
  | .jobj fs => decStrField fs "Type" ""
  | _ => .error "cannot unmarshal into header struct"

/-- Decoding of a leaf payload (`*IsExpression` and the like): an absent or
null payload leaves a nil pointer, modelled as the zero-valued leaf (the Go
value would panic if later evaluated; no theorem evaluates it). -/
def decodeLeafAs (data : Json) (mk : String → GoVal → Expr) : Except String Expr :=
  match data with
  | .jobj fs =>
    match (jfield fs "Expression").getD .jnull with
    | .jnull => .ok (mk "" .vnull)
    | .jobj ps =>
      match decStrField ps "Field" "" with
      | .error e => .error e
      | .ok f => .ok (mk f (decValField ps "Value" .vnull))
    | _ => .error "cannot unmarshal payload"
  | _ => .error "cannot unmarshal expression"

mutual
/-- Model of `unmarshalExpression`, fuel-bounded (Go's recursion is
bounded by the finite JSON input; every theorem supplies ample fuel).
First the discriminant is read, then the full payload is decoded into the
statically-known shape; an unrecognized discriminant is a hard failure. -/
def decodeExprF : Nat → Json → Except String Expr
  | 0, _ => .error "decode fuel exhausted"
  | fuel + 1, data =>
    match hdrType data with
    | .error e => .error e
    | .ok t =>
      if t = "Contains" then decodeLeafAs data .containsE
      else if t = "IContains" then decodeLeafAs data .icontainsE
      else if t = "IsNot" then decodeLeafAs data .isNotE
      else if t = "Is" then decodeLeafAs data .isE
      else if t = "And" then
        match decodeChildren fuel data with
        | .error e => .error e
        | .ok qs => .ok (.andE qs)
      else if t = "Or" then
        match decodeChildren fuel data with
        | .error e => .error e
        | .ok qs => .ok (.orE qs)
      else if t = "Not" then
        match data with
        | .jobj fs =>
          match (jfield fs "Expression").getD .jnull with
          | .jnull => .ok (.notE (.mk none))
          | .jobj ps =>
            match decodeQueryF fuel ((jfield ps "Expression").getD .jnull) with
            | .error e => .error e
            | .ok q => .ok (.notE q)
          | _ => .error "cannot unmarshal payload"
        | _ => .error "cannot unmarshal expression"
      else if t = "GT" then decodeLeafAs data .gtE
      else if t = "GTE" then decodeLeafAs data .gteE
      else if t = "LT" then decodeLeafAs data .ltE
      else if t = "LTE" then decodeLeafAs data .lteE
      else .error ("unrecognized type value " ++ goQuote t)
termination_by structural fuel => fuel

/-- Decoding of an `And`/`Or` payload: the `Expressions` slice, `null` or
absent decoding to the empty child list. -/
def decodeChildren : Nat → Json → Except String (List Query)
  | 0, _ => .error "decode fuel exhausted"
  | fuel + 1, data =>
    match data with
    | .jobj fs =>
      match (jfield fs "Expression").getD .jnull with
      | .jnull => .ok []
      | .jobj ps =>
        match (jfield ps "Expressions").getD .jnull with
        | .jnull => .ok []
        | .jarr xs => decodeQListF fuel xs
        | _ => .error "cannot unmarshal Expressions"
      | _ => .error "cannot unmarshal payload"
    | _ => .error "cannot unmarshal expression"
termination_by structural fuel => fuel

/-- Model of `Query.UnmarshalJSON`: the raw `Expression` member, when
present and non-empty, is decoded by `unmarshalExpression`. -/
def decodeQueryF : Nat → Json → Except String Query
  | 0, _ => .error "decode fuel exhausted"
  | fuel + 1, data =>
    match data with
    | .jnull => .ok (.mk none)
    | .jobj fs =>
      match jfield fs "Expression" with
      | none => .ok (.mk none)
      | some raw =>
        match decodeExprF fuel raw with
        | .error e => .error e
        | .ok e => .ok (.mk (some e))
    | _ => .error "cannot unmarshal query"
termination_by structural fuel => fuel

def decodeQListF : Nat → List Json → Except String (List Query)
  | 0, _ => .error "decode fuel exhausted"
  | _ + 1, [] => .ok []
  | fuel + 1, j :: js =>
    match decodeQueryF fuel j with
    | .error e => .error e
    | .ok q =>
      match decodeQListF fuel js with
      | .error e => .error e
      | .ok qs => .ok (q :: qs)
termination_by structural fuel => fuel
end

mutual
/-- Encoding of Go dynamic values by `encoding/json`: nil slices and maps
marshal to `null`; map keys are emitted in stored order (Go sorts them; no
theorem encodes a map value). -/
def encodeVal : GoVal → Json
  | .vnull => .jnull
  | .vbool b => .jbool b
  | .vint n => .jnum (GoFloat.ofInt n)
  | .vuint n => .jnum (GoFloat.ofInt (n : Int))
  | .vfloat q => .jnum q
  | .vstr s => .jstr s
  | .vslice _ none => .jnull
  | .vslice _ (some xs) => .jarr (encodeValList xs)
  | .vmapv none => .jnull
  | .vmapv (some fs) => .jobj (encodeValMap fs)

def encodeValList : List GoVal → List Json
  | [] => []
  | x :: xs => encodeVal x :: encodeValList xs

def encodeValMap : List (String × GoVal) → List (String × Json)
  | [] => []
  | (k, v) :: fs => (k, encodeVal v) :: encodeValMap fs
end

/-- Wire object of a leaf expression: the discriminant, then the payload
with the struct's fields in declaration order. -/
def leafJson (t f : String) (v : GoVal) : Json :=
  .jobj [("Type", .jstr t), ("Expression", .jobj [("Field", .jstr f), ("Value", encodeVal v)])]

mutual
/-- Model of `marshalExpression`: the eleven variants each encode with
their stable discriminant; any other `Expression` implementation (here
`ComparisonExpression`) is a marshalling error. -/
def encodeExpr : Expr → Except String Json
  | .containsE f v => .ok (leafJson "Contains" f v)
  | .icontainsE f v => .ok (leafJson "IContains" f v)
  | .isNotE f v => .ok (leafJson "IsNot" f v)
  | .isE f v => .ok (leafJson "Is" f v)
  | .andE qs =>
    match encodeQList qs with
    | .error e => .error e
    | .ok js => .ok (.jobj [("Type", .jstr "And"), ("Expression", .jobj [("Expressions", .jarr js)])])
  | .orE qs =>
    match encodeQList qs with
    | .error e => .error e
    | .ok js => .ok (.jobj [("Type", .jstr "Or"), ("Expression", .jobj [("Expressions", .jarr js)])])
  | .notE q =>
    match encodeQuery q with
    | .error e => .error e
    | .ok j => .ok (.jobj [("Type", .jstr "Not"), ("Expression", .jobj [("Expression", j)])])
  | .gtE f v => .ok (leafJson "GT" f v)
  | .gteE f v => .ok (leafJson "GTE" f v)
  | .ltE f v => .ok (leafJson "LT" f v)
  | .lteE f v => .ok (leafJson "LTE" f v)
  | .cmpE _ _ _ => .error "unknown expression type"

/-- Model of `Query.MarshalJSON`: `{"Expression": <marshalled tree>}`; an
empty query emits a null raw member. -/
def encodeQuery : Query → Except String Json
  | .mk none => .ok (.jobj [("Expression", .jnull)])
  | .mk (some e) =>
    match encodeExpr e with
    | .error err => .error err
    | .ok j => .ok (.jobj [("Expression", j)])

def encodeQList : List Query → Except String (List Json)
  | [] => .ok []
  | q :: qs =>
    match encodeQuery q with
    | .error e => .error e
    | .ok j =>
      match encodeQList qs with
      | .error e => .error e
      | .ok js => .ok (j :: js)
end

mutual
/-- Normalisation performed by a decode/encode round trip on dynamic
values: integers come back as `float64`, nil collections as nil
interfaces, slices as `[]interface{}`.  The integer cases are
value-preserving only for magnitudes at most 2^53 (binary64 rounding is
not modelled); the theorems using `canonVal` quantify over `jsonAtom`
operands, which carry exactly that bound. -/
def canonVal : GoVal → GoVal
  | .vnull => .vnull
  | .vbool b => .vbool b
  | .vint n => .vfloat (GoFloat.ofInt n)
  | .vuint n => .vfloat (GoFloat.ofInt (n : Int))
  | .vfloat q => .vfloat q
  | .vstr s => .vstr s
  | .vslice _ none => .vnull
  | .vslice _ (some xs) => .vslice .interfaceK (some (canonValList xs))
  | .vmapv none => .vnull
  | .vmapv (some fs) => .vmapv (some (canonValMap fs))

def canonValList : List GoVal → List GoVal
  | [] => []
  | x :: xs => canonVal x :: canonValList xs

def canonValMap : List (String × GoVal) → List (String × GoVal)
  | [] => []
  | (k, v) :: fs => (k, canonVal v) :: canonValMap fs
end

mutual
/-- The tree produced by decoding the encoding of a tree. -/
def canonExpr : Expr → Expr
  | .isE f v => .isE f (canonVal v)
  | .isNotE f v => .isNotE f (canonVal v)
  | .containsE f v => .containsE f (canonVal v)
  | .icontainsE f v => .icontainsE f (canonVal v)
  | .andE qs => .andE (canonQList qs)
  | .orE qs => .orE (canonQList qs)
  | .notE q => .notE (canonQuery q)
  | .gtE f v => .gtE f (canonVal v)
  | .gteE f v => .gteE f (canonVal v)
  | .ltE f v => .ltE f (canonVal v)
  | .lteE f v => .lteE f (canonVal v)
  | .cmpE l r o => .cmpE l r o

def canonQuery : Query → Query
  | .mk none => .mk none
  | .mk (some e) => .mk (some (canonExpr e))

def canonQList : List Query → List Query
  | [] => []
  | q :: qs => canonQuery q :: canonQList qs
end

/-- Atomic JSON-codable operand values whose decode/encode round trip the
program preserves: null, booleans, strings, float64 values, and integers
exactly representable in binary64, i.e. of magnitude at most 2^53.
Integers beyond 2^53 are excluded: there Go rounds the decoded `float64`
(e.g. `9007199254740993` re-encodes as `9007199254740992`), a loss the
exact-decimal model does not reproduce, so no round-trip theorem below
asserts anything about them. -/
def jsonAtom : GoVal → Bool
  | .vnull => true
  | .vbool _ => true
  | .vint n => decide (n.natAbs ≤ 2 ^ 53)
  | .vuint n => decide (n ≤ 2 ^ 53)
  | .vfloat _ => true
  | .vstr _ => true
  | _ => false

/-- Operand values fixed by a decode/encode round trip. -/
def stableVal : GoVal → Bool
  | .vnull => true
  | .vbool _ => true
  | .vfloat _ => true
  | .vstr _ => true
  | _ => false

mutual
/-- Trees in the image of the documented construction API: every query
holds an expression, every expression is one of the eleven wire variants,
every operand is atomic (integer operands bounded by 2^53, see
`jsonAtom`). -/
def wireExpr : Expr → Bool
  | .isE _ v => jsonAtom v
  | .isNotE _ v => jsonAtom v
  | .containsE _ v => jsonAtom v
  | .icontainsE _ v => jsonAtom v
  | .andE qs => wireQList qs
  | .orE qs => wireQList qs
  | .notE q => wireQuery q
  | .gtE _ v => jsonAtom v
  | .gteE _ v => jsonAtom v
  | .ltE _ v => jsonAtom v
  | .lteE _ v => jsonAtom v
  | .cmpE _ _ _ => false

def wireQuery : Query → Bool
  | .mk none => false
  | .mk (some e) => wireExpr e

def wireQList : List Query → Bool
  | [] => true
  | q :: qs => wireQuery q && wireQList qs
end

mutual
/-- Wire trees all of whose operands survive the round trip unchanged. -/
def stableExpr : Expr → Bool
  | .isE _ v => stableVal v
  | .isNotE _ v => stableVal v
  | .containsE _ v => stableVal v
  | .icontainsE _ v => stableVal v
  | .andE qs => stableQList qs
  | .orE qs => stableQList qs
  | .notE q => stableQuery q
  | .gtE _ v => stableVal v
  | .gteE _ v => stableVal v
  | .ltE _ v => stableVal v
  | .lteE _ v => stableVal v
  | .cmpE _ _ _ => false

def stableQuery : Query → Bool
  | .mk none => false
  | .mk (some e) => stableExpr e

def stableQList : List Query → Bool
  | [] => true
  | q :: qs => stableQuery q && stableQList qs
end

mutual
/-- Fuel bound sufficient to decode the encoding of a tree. -/
def edepth : Expr → Nat
  | .andE qs => 2 + qlistDepth qs
  | .orE qs => 2 + qlistDepth qs
  | .notE q => 1 + qdepth q
  | _ => 1

def qdepth : Query → Nat
  | .mk none => 1
  | .mk (some e) => 1 + edepth e

def qlistDepth : List Query → Nat
  | [] => 1
  | q :: qs => 1 + max (qdepth q) (qlistDepth qs)
end

/-- Rendering of a JSON number as `encoding/json` renders the
corresponding Go value (reusing the `%g` model; `encoding/json` switches
notation at 1e-6/1e21 and trims exponent zeros, which no byte-identity
statement below depends on — each follows from equality of JSON trees). -/
def renderNum (q : GoFloat) : String := formatGoFloat q

/-- String escaping of `encoding/json` restricted to the characters the
theorems use (quote, backslash, HTML-escaped angle brackets and
ampersand; control characters do not occur). -/
def escJsonChar (c : Char) : String :=
  if c = '"' then "\\\""
  else if c = '\\' then "\\\\"
  else if c = '<' then "\\u003c"
  else if c = '>' then "\\u003e"
  else if c = '&' then "\\u0026"
  else String.mk [c]

def renderStr (s : String) : String :=
  "\"" ++ String.join (s.toList.map escJsonChar) ++ "\""

mutual
/-- Byte rendering of a JSON tree (compact form, as `json.Marshal`
produces). -/
def renderJson : Json → String
  | .jnull => "null"
  | .jbool true => "true"
  | .jbool false => "false"
  | .jnum q => renderNum q
  | .jstr s => renderStr s
  | .jarr xs => "[" ++ renderArr xs ++ "]"
  | .jobj fs => "\x7b" ++ renderObj fs ++ "\x7d"

def renderArr : List Json → String
  | [] => ""
  | [x] => renderJson x
  | x :: xs => renderJson x ++ "," ++ renderArr xs

def renderObj : List (String × Json) → String
  | [] => ""
  | [(k, v)] => renderStr k ++ ":" ++ renderJson v
  | (k, v) :: fs => renderStr k ++ ":" ++ renderJson v ++ "," ++ renderObj fs
end

/-! Specification-level definitions.  Each follows the wording of the
specification sentence underlying a claim, to be compared against the
definitions translated from the source. -/

/-- The behaviour claimed for `Is` (claim C1, spec §4.2): true iff the
field resolves to a present value structurally equal to the operand, with
the special case that a Null operand matches exactly a present
null-reference/nil-collection field; absent means false. -/
def isStrictSpec (field : String) (v : GoVal) (i : Inp) : Bool :=
  match resolveField i field with
  | none => false
  | some f => if isNullV v then isNilRef f else valEq f v

/-- The behaviour `Is` actually has: as `isStrictSpec`, plus a match when
the default textual forms of the field value and of the operand coincide
(amended claim C1). -/
def isAmendedSpec (field : String) (v : GoVal) (i : Inp) : Bool :=
  match resolveField i field with
  | none => false
  | some f => (isNullV v && isNilRef f) || valEq f v || (stringValue f == stringValue v)

/-- The ordered-comparison behaviour as the specification words it (claim
C5): a numeric field coerces the operand to its own numeric kind and
compares numerically; a textual field compares byte-wise lexically against
the textual form of the operand; any other field kind, a failed coercion,
or an absent field yields false. -/
def orderedSpec (op : CmpOp) (field : String) (v : GoVal) (i : Inp) : Bool :=
  match resolveField i field with
  | none => false
  | some f =>
    match f with
    | .vint n => (coerceInt64 v).elim false (fun m => cmpOpInt op n m)
    | .vuint n => (coerceUint64 v).elim false (fun m => cmpOpNat op n m)
    | .vfloat x => (coerceFloat v).elim false (fun m => cmpOpFloat op x m)
    | .vstr s => cmpOpOfCompare op (goStrCompare s (stringValue v))
    | _ => false

/-- Left-to-right conjunction fold (claim C6): false at the first false
child, error at the first erroring child, vacuously true when empty. -/
def andFold : List (Except String Bool) → Except String Bool
  | [] => .ok true
  | r :: rs =>
    match r with
    | .error e => .error e
    | .ok false => .ok false
    | .ok true => andFold rs

/-- Left-to-right disjunction fold (claim C6). -/
def orFold : List (Except String Bool) → Except String Bool
  | [] => .ok false
  | r :: rs =>
    match r with
    | .error e => .error e
    | .ok true => .ok true
    | .ok false => orFold rs

/-- Function resolution as amended for claim C7: a call with a non-empty
name consults the context registry first and falls back to the bound
reference; a call with an empty name only ever uses the bound reference. -/
def resolveFunction (c : Context) (name : String) (bound : Option Function) : Option Function :=
  if name = "" then bound
  else
    match lookupFn c.Functions name with
    | some f => some f
    | none => bound

/-- The eleven stable wire discriminants (claim C8). -/
def knownDiscriminants : List String :=
  ["Is", "IsNot", "Contains", "IContains", "And", "Or", "Not", "GT", "GTE", "LT", "LTE"]

/-- The eight field-resolving leaf variants (amended claim C9). -/
inductive LeafKind where
  | isK | isNotK | containsK | icontainsK | gtK | gteK | ltK | lteK

def mkLeaf : LeafKind → String → GoVal → Expr
  | .isK, f, v => .isE f v
  | .isNotK, f, v => .isNotE f v
  | .containsK, f, v => .containsE f v
  | .icontainsK, f, v => .icontainsE f v
  | .gtK, f, v => .gtE f v
  | .gteK, f, v => .gteE f v
  | .ltK, f, v => .ltE f v
  | .lteK, f, v => .lteE f v

/-! Concrete fixtures used by counterexamples and witnesses. -/

/-- The repository's own round-trip test tree:
`And [Is Name "bob", GT Age 30]` with the integer operand replaced by a
float so that the tree is round-trip stable. -/
def fixStableQuery : Query :=
  .mk (some (.andE [.mk (some (.isE "Name" (.vstr "bob"))),
                    .mk (some (.notE (.mk (some (.gtE "Age" (.vfloat ⟨30, 0⟩))))))]))

/-- `IsNot "A" int(5)`: a constructible tree whose decode re-types the
operand as float64. -/
def fixIsNotInt : Query := .mk (some (.isNotE "A" (.vint 5)))

/-- The same tree after a decode/encode round trip. -/
def fixIsNotFloat : Query := .mk (some (.isNotE "A" (.vfloat (GoFloat.ofInt 5))))

/-- A map record carrying the integer 5 in field `A`. -/
def fixRecA5 : Inp := .mapv [("A", .vint 5)]

/-- A function returning a constant, used to populate a registry. -/
def fixFn : Function := ⟨fun _ => .ok (.vbool true)⟩

/-- A context whose registry binds the empty name. -/
def fixCtxEmptyName : Context := ⟨[("", fixFn)], []⟩

/-- The query parsed from `A < 0.00001` (claim C3). -/
def fixSmallFloatQuery : Query := .mk (some (.ltE "A" (.vfloat ⟨1, 5⟩)))

/-! Theorems. -/

theorem evalAnd_eq_fold (qs : List Query) (i : Inp) (opts : List Opt) :
    evalAnd qs i opts = andFold (qs.map (fun q => evalQuery q i opts)) := by
  induction qs with
  | nil => rfl
  | cons q qs ih =>
    cases hr : evalQuery q i opts with
    | error e => simp [evalAnd, andFold, hr]
    | ok b => cases b <;> simp [evalAnd, andFold, hr, ih]

theorem evalOr_eq_fold (qs : List Query) (i : Inp) (opts : List Opt) :
    evalOr qs i opts = orFold (qs.map (fun q => evalQuery q i opts)) := by
  induction qs with
  | nil => rfl
  | cons q qs ih =>
    cases hr : evalQuery q i opts with
    | error e => simp [evalOr, orFold, hr]
    | ok b => cases b <;> simp [evalOr, orFold, hr, ih]

theorem orderedEval_eq_spec (op : CmpOp) (field : String) (v : GoVal) (i : Inp) :
    orderedEval op field v i = orderedSpec op field v i := by
  unfold orderedEval orderedSpec
  cases resolveField i field with
  | none => rfl
  | some f =>
    cases f with
    | vint n => cases coerceInt64 v <;> rfl
    | vuint n => cases coerceUint64 v <;> rfl
    | vfloat q => cases coerceFloat v <;> rfl
    | vstr s => cases v <;> rfl
    | _ => rfl

/-- C1: the claim's strict reading of `Is` — true iff the field is present
and structurally equal to the operand (a Null operand matching exactly a
present nil reference/collection) — is refuted: the implementation also
succeeds when the default textual forms coincide.  Here the field holds
the string `"5"`, the operand is the integer `5`: not structurally equal,
yet the evaluation returns true. -/
theorem c1_counterexample :
    evalExpr (.isE "A" (.vint 5)) (.mapv [("A", .vstr "5")]) [] = .ok true ∧
    isStrictSpec "A" (.vint 5) (.mapv [("A", .vstr "5")]) = false ∧
    valEq (.vstr "5") (.vint 5) = false := by
  refine ⟨rfl, rfl, rfl⟩

/-- C1 (amended): for every record and operand, `Is(field, v)` evaluates
without error to: field present and (operand Null and field a nil
reference/collection, or structurally equal, or equal default textual
forms); an absent field yields false. -/
theorem c1_is_amended (field : String) (v : GoVal) (i : Inp) (opts : List Opt) :
    evalExpr (.isE field v) i opts = .ok (isAmendedSpec field v i) := by
  unfold isAmendedSpec
  cases h : resolveField i field with
  | none => simp [evalExpr, h]
  | some f =>
    simp only [evalExpr, h]
    cases hb : isNullV v && isNilRef f <;> cases hc : valEq f v <;> simp [hb, hc]

/-- C4: on a record where the field does not resolve, `IsNot(field, v)`
returns false with no error, while `Not(Is(field, v))` returns true, for
every operand value. -/
theorem c4_isnot_absent_asymmetry (field : String) (v : GoVal) (i : Inp) (opts : List Opt)
    (h : resolveField i field = none) :
    evalExpr (.isNotE field v) i opts = .ok false ∧
    evalExpr (.notE (.mk (some (.isE field v)))) i opts = .ok true := by
  constructor
  · simp [evalExpr, h]
  · simp [evalExpr, evalQuery, h]

theorem c4_witness :
    evalExpr (.isNotE "A" (.vstr "x")) (.mapv []) [] = .ok false ∧
    evalExpr (.notE (.mk (some (.isE "A" (.vstr "x"))))) (.mapv []) [] = .ok true :=
  c4_isnot_absent_asymmetry "A" (.vstr "x") (.mapv []) [] rfl

/-- C5: each ordered comparison evaluates without error to the
specification dispatch: numeric fields coerce the operand to the field's
numeric kind and compare numerically, textual fields compare byte-wise
lexically against the operand's textual form, and any other field kind,
failed coercion or absent field yields false. -/
theorem c5_ordered_comparisons (field : String) (v : GoVal) (i : Inp) (opts : List Opt) :
    evalExpr (.gtE field v) i opts = .ok (orderedSpec .gt field v i) ∧
    evalExpr (.gteE field v) i opts = .ok (orderedSpec .gte field v i) ∧
    evalExpr (.ltE field v) i opts = .ok (orderedSpec .lt field v i) ∧
    evalExpr (.lteE field v) i opts = .ok (orderedSpec .lte field v i) := by
  refine ⟨?_, ?_, ?_, ?_⟩ <;> simp [evalExpr, orderedEval_eq_spec]

/-- C6: `And` evaluates as the left-to-right short-circuiting conjunction
fold of its children (true when empty, false at the first false child,
the first child error propagated), and `Or` dually. -/
theorem c6_and_or_semantics (qs : List Query) (i : Inp) (opts : List Opt) :
    evalExpr (.andE qs) i opts = andFold (qs.map (fun q => evalQuery q i opts)) ∧
    evalExpr (.orE qs) i opts = orFold (qs.map (fun q => evalQuery q i opts)) ∧
    evalExpr (.andE []) i opts = .ok true ∧
    evalExpr (.orE []) i opts = .ok false := by
  refine ⟨?_, ?_, rfl, rfl⟩ <;> simp [evalExpr, evalAnd_eq_fold, evalOr_eq_fold]

/-- C7: the claim that resolution always consults the registry first is
refuted for calls with an empty name: the registry binds the empty name,
yet evaluation never consults it and reports the function as not found. -/
theorem c7_counterexample :
    (lookupFn fixCtxEmptyName.Functions "").isSome = true ∧
    evalTerm (.funcT "" none []) Inp.other [.ctx fixCtxEmptyName] =
      .error ("function " ++ goQuote "" ++ " not found") := by
  refine ⟨rfl, rfl⟩

/-- C7 (amended): a `FunctionCall` resolves via the registry of the
supplied context only when its name is non-empty, falling back to the
directly bound reference, and errors when neither resolves; with no
context supplied the default context has an empty registry. -/
theorem c7_function_resolution (name : String) (bound : Option Function) (args : List Term)
    (i : Inp) (opts : List Opt) :
    (evalTerm (.funcT name bound args) i opts =
      match resolveFunction (GetContext opts) name bound with
      | none => .error ("function " ++ goQuote name ++ " not found")
      | some f =>
        match evalTermArgs args i opts with
        | .error e => .error e
        | .ok as => f.call as) ∧
    GetContext [] = ⟨[], []⟩ := by
  refine ⟨?_, rfl⟩
  by_cases hn : name = "" <;> simp [evalTerm, resolveFunction, hn]

/-- C9: the claim that every boolean Expression variant returns false on a
struct passed by value is refuted: `Not(Is(...))` (and the empty `And`)
evaluates to true there. -/
theorem c9_counterexample :
    evalExpr (.notE (.mk (some (.isE "A" (.vstr "x"))))) (.structv [("A", .vstr "x")]) [] =
      .ok true ∧
    evalExpr (.andE []) (.structv [("A", .vstr "x")]) [] = .ok true := by
  refine ⟨rfl, rfl⟩

/-- C9 (amended): dereferencing rejects a struct passed by value and a nil
pointer and accepts maps both directly and behind a pointer (and structs
behind a pointer); consequently every field-resolving leaf variant
evaluates to false without error on a by-value struct or a nil pointer,
while composite variants need not. -/
theorem c9_deref_dispatch (fs : List (String × GoVal)) :
    derefValue (.structv fs) = none ∧
    derefValue Inp.nilPtr = none ∧
    derefValue (.mapv fs) = some fs ∧
    derefValue (.ptrMap fs) = some fs ∧
    derefValue (.ptrStruct fs) = some fs ∧
    (∀ k field v opts, evalExpr (mkLeaf k field v) (.structv fs) opts = .ok false) ∧
    (∀ k field v opts, evalExpr (mkLeaf k field v) Inp.nilPtr opts = .ok false) := by
  refine ⟨rfl, rfl, rfl, rfl, rfl, ?_, ?_⟩ <;>
    · intro k field v opts
      cases k <;> simp [mkLeaf, evalExpr, orderedEval, resolveField, derefValue]

/-- C3: the grammar accepts `A < 0.00001`, whose parse stringifies — via
the default `%g` float form — to `A < 1e-05`, which the lexer rejects
(`-` matches no token), so `parse(stringify(parse(s)))` fails instead of
reproducing `parse(s)`: the stringifier emits scientific-notation floats
the lexer cannot read, violating the documented round-trip property. -/
theorem c3_roundtrip_failure :
    Parse "A < 0.00001" = .ok fixSmallFloatQuery ∧
    Stringify fixSmallFloatQuery = "A < 1e-05" ∧
    Parse "A < 1e-05" = .error ("unexpected character " ++ goQuote "-") := by
  refine ⟨rfl, rfl, rfl⟩

/-- C8: decoding a wire object whose discriminant is not one of the eleven
known strings fails with the unrecognized-type error before any tree is
produced; in particular the wrapper object with discriminant `Bogus`
fails. -/
theorem c8_unknown_discriminant :
    (∀ (n : Nat) (data : Json) (t : String), hdrType data = .ok t →
      t ∉ knownDiscriminants →
      decodeExprF (n + 1) data = .error ("unrecognized type value " ++ goQuote t)) ∧
    (∀ n : Nat, decodeQueryF (n + 2) (.jobj [("Expression", .jobj [("Type", .jstr "Bogus")])]) =
      .error ("unrecognized type value " ++ goQuote "Bogus")) := by
  have hgen : ∀ (n : Nat) (data : Json) (t : String), hdrType data = .ok t →
      t ∉ knownDiscriminants →
      decodeExprF (n + 1) data = .error ("unrecognized type value " ++ goQuote t) := by
    intro n data t h hmem
    simp only [knownDiscriminants, List.mem_cons, List.not_mem_nil, or_false, not_or] at hmem
    obtain ⟨h1, h2, h3, h4, h5, h6, h7, h8, h9, h10, h11⟩ := hmem
    simp [decodeExprF, h, h1, h2, h3, h4, h5, h6, h7, h8, h9, h10, h11]
  refine ⟨hgen, fun n => ?_⟩
  have hb : decodeExprF (n + 1) (.jobj [("Type", .jstr "Bogus")]) =
      .error ("unrecognized type value " ++ goQuote "Bogus") :=
    hgen n _ "Bogus" rfl (by decide)
  simp [decodeQueryF, jfield, keyMatches, hb]

theorem c8_witness :
    decodeExprF 1 (.jobj [("Type", .jstr "Bogus")]) =
      .error ("unrecognized type value " ++ goQuote "Bogus") :=
  c8_unknown_discriminant.1 0 _ "Bogus" rfl (by decide)

theorem decodeVal_encodeVal_atom (v : GoVal) (h : jsonAtom v = true) :
    decodeVal (encodeVal v) = canonVal v := by
  cases v <;> simp_all [jsonAtom, encodeVal, decodeVal, canonVal]

theorem decodeAnd_step (js : List Json) (n : Nat) :
    decodeExprF (n + 2)
      (.jobj [("Type", .jstr "And"), ("Expression", .jobj [("Expressions", .jarr js)])]) =
      (decodeQListF n js).map .andE := by
  cases h : decodeQListF n js <;>
    simp [decodeExprF, decodeChildren, hdrType, jfield, keyMatches, h] <;> rfl

theorem decodeOr_step (js : List Json) (n : Nat) :
    decodeExprF (n + 2)
      (.jobj [("Type", .jstr "Or"), ("Expression", .jobj [("Expressions", .jarr js)])]) =
      (decodeQListF n js).map .orE := by
  cases h : decodeQListF n js <;>
    simp [decodeExprF, decodeChildren, hdrType, jfield, keyMatches, h] <;> rfl

theorem decodeNot_step (jq : Json) (n : Nat) :
    decodeExprF (n + 1)
      (.jobj [("Type", .jstr "Not"), ("Expression", .jobj [("Expression", jq)])]) =
      (decodeQueryF n jq).map .notE := by
  cases h : decodeQueryF n jq <;> simp [decodeExprF, hdrType, jfield, keyMatches, h] <;> rfl

theorem decodeQuery_step (je : Json) (n : Nat) :
    decodeQueryF (n + 1) (.jobj [("Expression", je)]) =
      (decodeExprF n je).map (fun e => Query.mk (some e)) := by
  cases h : decodeExprF n je <;> simp [decodeQueryF, jfield, keyMatches, h] <;> rfl

mutual
theorem decencE (e : Expr) (hw : wireExpr e = true) (n : Nat) (hd : edepth e ≤ n) :
    (encodeExpr e).bind (decodeExprF n) = .ok (canonExpr e) := by
  cases e with
  | isE f v =>
    obtain ⟨m, rfl⟩ : ∃ m, n = m + 1 := ⟨n - 1, by simp [edepth] at hd; omega⟩
    show decodeExprF (m + 1) (leafJson "Is" f v) = .ok (canonExpr (.isE f v))
    rw [show decodeExprF (m + 1) (leafJson "Is" f v) =
          .ok (.isE f (decodeVal (encodeVal v))) from rfl,
        decodeVal_encodeVal_atom v hw]
    rfl
  | isNotE f v =>
    obtain ⟨m, rfl⟩ : ∃ m, n = m + 1 := ⟨n - 1, by simp [edepth] at hd; omega⟩
    show decodeExprF (m + 1) (leafJson "IsNot" f v) = .ok (canonExpr (.isNotE f v))
    rw [show decodeExprF (m + 1) (leafJson "IsNot" f v) =
          .ok (.isNotE f (decodeVal (encodeVal v))) from rfl,
        decodeVal_encodeVal_atom v hw]
    rfl
  | containsE f v =>
    obtain ⟨m, rfl⟩ : ∃ m, n = m + 1 := ⟨n - 1, by simp [edepth] at hd; omega⟩
    show decodeExprF (m + 1) (leafJson "Contains" f v) = .ok (canonExpr (.containsE f v))
    rw [show decodeExprF (m + 1) (leafJson "Contains" f v) =
          .ok (.containsE f (decodeVal (encodeVal v))) from rfl,
        decodeVal_encodeVal_atom v hw]
    rfl
  | icontainsE f v =>
    obtain ⟨m, rfl⟩ : ∃ m, n = m + 1 := ⟨n - 1, by simp [edepth] at hd; omega⟩
    show decodeExprF (m + 1) (leafJson "IContains" f v) = .ok (canonExpr (.icontainsE f v))
    rw [show decodeExprF (m + 1) (leafJson "IContains" f v) =
          .ok (.icontainsE f (decodeVal (encodeVal v))) from rfl,
        decodeVal_encodeVal_atom v hw]
    rfl
  | gtE f v =>
    obtain ⟨m, rfl⟩ : ∃ m, n = m + 1 := ⟨n - 1, by simp [edepth] at hd; omega⟩
    show decodeExprF (m + 1) (leafJson "GT" f v) = .ok (canonExpr (.gtE f v))
    rw [show decodeExprF (m + 1) (leafJson "GT" f v) =
          .ok (.gtE f (decodeVal (encodeVal v))) from rfl,
        decodeVal_encodeVal_atom v hw]
    rfl
  | gteE f v =>
    obtain ⟨m, rfl⟩ : ∃ m, n = m + 1 := ⟨n - 1, by simp [edepth] at hd; omega⟩
    show decodeExprF (m + 1) (leafJson "GTE" f v) = .ok (canonExpr (.gteE f v))
    rw [show decodeExprF (m + 1) (leafJson "GTE" f v) =
          .ok (.gteE f (decodeVal (encodeVal v))) from rfl,
        decodeVal_encodeVal_atom v hw]
    rfl
  | ltE f v =>
    obtain ⟨m, rfl⟩ : ∃ m, n = m + 1 := ⟨n - 1, by simp [edepth] at hd; omega⟩
    show decodeExprF (m + 1) (leafJson "LT" f v) = .ok (canonExpr (.ltE f v))
    rw [show decodeExprF (m + 1) (leafJson "LT" f v) =
          .ok (.ltE f (decodeVal (encodeVal v))) from rfl,
        decodeVal_encodeVal_atom v hw]
    rfl
  | lteE f v =>
    obtain ⟨m, rfl⟩ : ∃ m, n = m + 1 := ⟨n - 1, by simp [edepth] at hd; omega⟩
    show decodeExprF (m + 1) (leafJson "LTE" f v) = .ok (canonExpr (.lteE f v))
    rw [show decodeExprF (m + 1) (leafJson "LTE" f v) =
          .ok (.lteE f (decodeVal (encodeVal v))) from rfl,
        decodeVal_encodeVal_atom v hw]
    rfl
  | andE qs =>
    obtain ⟨m, rfl⟩ : ∃ m, n = m + 2 := ⟨n - 2, by simp [edepth] at hd; omega⟩
    have hql := decencQL qs hw m (by simp [edepth] at hd; omega)
    cases hjs : encodeQList qs with
    | error e => rw [hjs] at hql; exact Except.noConfusion hql
    | ok js =>
      rw [hjs] at hql
      have hql' : decodeQListF m js = .ok (canonQList qs) := hql
      simp only [encodeExpr, hjs]
      show decodeExprF (m + 2)
        (.jobj [("Type", .jstr "And"), ("Expression", .jobj [("Expressions", .jarr js)])]) =
        .ok (canonExpr (.andE qs))
      rw [decodeAnd_step, hql']
      rfl
  | orE qs =>
    obtain ⟨m, rfl⟩ : ∃ m, n = m + 2 := ⟨n - 2, by simp [edepth] at hd; omega⟩
    have hql := decencQL qs hw m (by simp [edepth] at hd; omega)
    cases hjs : encodeQList qs with
    | error e => rw [hjs] at hql; exact Except.noConfusion hql
    | ok js =>
      rw [hjs] at hql
      have hql' : decodeQListF m js = .ok (canonQList qs) := hql
      simp only [encodeExpr, hjs]
      show decodeExprF (m + 2)
        (.jobj [("Type", .jstr "Or"), ("Expression", .jobj [("Expressions", .jarr js)])]) =
        .ok (canonExpr (.orE qs))
      rw [decodeOr_step, hql']
      rfl
  | notE q =>
    obtain ⟨m, rfl⟩ : ∃ m, n = m + 1 := ⟨n - 1, by simp [edepth] at hd; omega⟩
    have hq := decencQ q hw m (by simp [edepth] at hd; omega)
    cases hjq : encodeQuery q with
    | error e => rw [hjq] at hq; exact Except.noConfusion hq
    | ok jq =>
      rw [hjq] at hq
      have hq' : decodeQueryF m jq = .ok (canonQuery q) := hq
      simp only [encodeExpr, hjq]
      show decodeExprF (m + 1)
        (.jobj [("Type", .jstr "Not"), ("Expression", .jobj [("Expression", jq)])]) =
        .ok (canonExpr (.notE q))
      rw [decodeNot_step, hq']
      rfl
  | cmpE l r o => exact absurd hw (by simp [wireExpr])

theorem decencQ (q : Query) (hw : wireQuery q = true) (n : Nat) (hd : qdepth q ≤ n) :
    (encodeQuery q).bind (decodeQueryF n) = .ok (canonQuery q) := by
  cases q with
  | mk oe =>
    cases oe with
    | none => exact absurd hw (by simp [wireQuery])
    | some e =>
      obtain ⟨m, rfl⟩ : ∃ m, n = m + 1 := ⟨n - 1, by simp [qdepth] at hd; omega⟩
      have he := decencE e hw m (by simp [qdepth] at hd; omega)
      cases hje : encodeExpr e with
      | error e2 => rw [hje] at he; exact Except.noConfusion he
      | ok je =>
        rw [hje] at he
        have he' : decodeExprF m je = .ok (canonExpr e) := he
        simp only [encodeQuery, hje]
        show decodeQueryF (m + 1) (.jobj [("Expression", je)]) =
          .ok (canonQuery (.mk (some e)))
        rw [decodeQuery_step, he']
        rfl

theorem decencQL (qs : List Query) (hw : wireQList qs = true) (n : Nat)
    (hd : qlistDepth qs ≤ n) :
    (encodeQList qs).bind (fun js => decodeQListF n js) = .ok (canonQList qs) := by
  cases qs with
  | nil =>
    obtain ⟨m, rfl⟩ : ∃ m, n = m + 1 := ⟨n - 1, by simp [qlistDepth] at hd; omega⟩
    rfl
  | cons q qs =>
    obtain ⟨m, rfl⟩ : ∃ m, n = m + 1 := ⟨n - 1, by simp [qlistDepth] at hd; omega⟩
    have hdm : qdepth q ≤ m ∧ qlistDepth qs ≤ m := by
      simp [qlistDepth, Nat.max_le] at hd; omega
    have hw2 : wireQuery q = true ∧ wireQList qs = true := by
      simpa [wireQList, Bool.and_eq_true] using hw
    have hq := decencQ q hw2.1 m hdm.1
    have hl := decencQL qs hw2.2 m hdm.2
    cases hjq : encodeQuery q with
    | error e => rw [hjq] at hq; exact Except.noConfusion hq
    | ok j =>
      rw [hjq] at hq
      have hq' : decodeQueryF m j = .ok (canonQuery q) := hq
      cases hjs : encodeQList qs with
      | error e => rw [hjs] at hl; exact Except.noConfusion hl
      | ok js =>
        rw [hjs] at hl
        have hl' : decodeQListF m js = .ok (canonQList qs) := hl
        simp only [encodeQList, hjq, hjs]
        show decodeQListF (m + 1) (j :: js) = .ok (canonQList (q :: qs))
        simp only [decodeQListF, hq', hl']
        rfl
end

mutual
theorem encodeVal_canon (v : GoVal) : encodeVal (canonVal v) = encodeVal v := by
  cases v with
  | vslice k xs =>
    cases xs with
    | none => rfl
    | some xs => simp only [canonVal, encodeVal, encodeVal_canonList]
  | vmapv fs =>
    cases fs with
    | none => rfl
    | some fs => simp only [canonVal, encodeVal, encodeVal_canonMap]
  | _ => rfl

theorem encodeVal_canonList (xs : List GoVal) :
    encodeValList (canonValList xs) = encodeValList xs := by
  cases xs with
  | nil => rfl
  | cons x xs =>
    simp only [canonValList, encodeValList, encodeVal_canon, encodeVal_canonList]

theorem encodeVal_canonMap (fs : List (String × GoVal)) :
    encodeValMap (canonValMap fs) = encodeValMap fs := by
  cases fs with
  | nil => rfl
  | cons f fs =>
    simp only [canonValMap, encodeValMap, encodeVal_canon, encodeVal_canonMap]
end

mutual
theorem encodeExpr_canon (e : Expr) : encodeExpr (canonExpr e) = encodeExpr e := by
  cases e with
  | andE qs => simp only [canonExpr, encodeExpr, encodeQList_canon]
  | orE qs => simp only [canonExpr, encodeExpr, encodeQList_canon]
  | notE q => simp only [canonExpr, encodeExpr, encodeQuery_canon]
  | cmpE l r o => rfl
  | isE f v => simp only [canonExpr, encodeExpr, leafJson, encodeVal_canon]
  | isNotE f v => simp only [canonExpr, encodeExpr, leafJson, encodeVal_canon]
  | containsE f v => simp only [canonExpr, encodeExpr, leafJson, encodeVal_canon]
  | icontainsE f v => simp only [canonExpr, encodeExpr, leafJson, encodeVal_canon]
  | gtE f v => simp only [canonExpr, encodeExpr, leafJson, encodeVal_canon]
  | gteE f v => simp only [canonExpr, encodeExpr, leafJson, encodeVal_canon]
  | ltE f v => simp only [canonExpr, encodeExpr, leafJson, encodeVal_canon]
  | lteE f v => simp only [canonExpr, encodeExpr, leafJson, encodeVal_canon]

theorem encodeQuery_canon (q : Query) : encodeQuery (canonQuery q) = encodeQuery q := by
  cases q with
  | mk oe =>
    cases oe with
    | none => rfl
    | some e => simp only [canonQuery, encodeQuery, encodeExpr_canon]

theorem encodeQList_canon (qs : List Query) :
    encodeQList (canonQList qs) = encodeQList qs := by
  cases qs with
  | nil => rfl
  | cons q qs => simp only [canonQList, encodeQList, encodeQuery_canon, encodeQList_canon]
end

theorem canonVal_stable (v : GoVal) (h : stableVal v = true) : canonVal v = v := by
  cases v <;> simp_all [stableVal, canonVal]

mutual
theorem canonExpr_stable (e : Expr) (h : stableExpr e = true) : canonExpr e = e := by
  cases e with
  | andE qs => simp only [canonExpr, canonQList_stable qs h]
  | orE qs => simp only [canonExpr, canonQList_stable qs h]
  | notE q => simp only [canonExpr, canonQuery_stable q h]
  | cmpE l r o => rfl
  | isE f v => simp only [canonExpr, canonVal_stable v h]
  | isNotE f v => simp only [canonExpr, canonVal_stable v h]
  | containsE f v => simp only [canonExpr, canonVal_stable v h]
  | icontainsE f v => simp only [canonExpr, canonVal_stable v h]
  | gtE f v => simp only [canonExpr, canonVal_stable v h]
  | gteE f v => simp only [canonExpr, canonVal_stable v h]
  | ltE f v => simp only [canonExpr, canonVal_stable v h]
  | lteE f v => simp only [canonExpr, canonVal_stable v h]

theorem canonQuery_stable (q : Query) (h : stableQuery q = true) : canonQuery q = q := by
  cases q with
  | mk oe =>
    cases oe with
    | none => rfl
    | some e => simp only [canonQuery, canonExpr_stable e h]

theorem canonQList_stable (qs : List Query) (h : stableQList qs = true) :
    canonQList qs = qs := by
  cases qs with
  | nil => rfl
  | cons q qs =>
    have h2 : stableQuery q = true ∧ stableQList qs = true := by
      simpa [stableQList, Bool.and_eq_true] using h
    simp only [canonQList, canonQuery_stable q h2.1, canonQList_stable qs h2.2]
end

/-- C2: the round-trip claim is refuted for trees holding integer
operands: `IsNot "A" int(5)` decodes back with a float64 operand — not
deep-equal to the original — and the two trees evaluate differently on
the record `A = 5` (false before the trip, true after). -/
theorem c2_counterexample :
    (encodeQuery fixIsNotInt).bind (decodeQueryF 10) = .ok fixIsNotFloat ∧
    evalQuery fixIsNotInt fixRecA5 [] = .ok false ∧
    evalQuery fixIsNotFloat fixRecA5 [] = .ok true ∧
    fixIsNotFloat ≠ fixIsNotInt := by
  refine ⟨rfl, rfl, rfl, fun h => ?_⟩
  have h2 : evalQuery fixIsNotFloat fixRecA5 [] = evalQuery fixIsNotInt fixRecA5 [] := by
    rw [h]
  rw [show evalQuery fixIsNotFloat fixRecA5 [] = .ok true from rfl,
      show evalQuery fixIsNotInt fixRecA5 [] = .ok false from rfl] at h2
  exact Except.noConfusion h2 (fun hb => Bool.noConfusion hb)

/-- C2 (amended): for every tree built from the eleven wire variants with
every query node non-empty and atomic JSON operands — integer operands of
magnitude at most 2^53, where the float64 they decode to is exact — and
ample fuel, decoding the encoding succeeds and yields the canonicalised
tree (integer operands re-typed as float64, value preserved); re-encoding
the decoded tree is byte-identical to the original encoding; and when the
operands are of the JSON-stable kinds (null, bool, float64, string) the
decoded tree is deep-equal to the original and therefore evaluates
identically on every input. -/
theorem c2_roundtrip (q : Query) (n : Nat) (hw : wireQuery q = true) (hd : qdepth q ≤ n) :
    (encodeQuery q).bind (decodeQueryF n) = .ok (canonQuery q) ∧
    encodeQuery (canonQuery q) = encodeQuery q ∧
    (encodeQuery (canonQuery q)).map renderJson = (encodeQuery q).map renderJson ∧
    (stableQuery q = true → canonQuery q = q) ∧
    (stableQuery q = true →
      ∀ i opts, evalQuery (canonQuery q) i opts = evalQuery q i opts) := by
  refine ⟨decencQ q hw n hd, encodeQuery_canon q, by rw [encodeQuery_canon q], ?_, ?_⟩
  · exact canonQuery_stable q
  · intro hs i opts
    rw [canonQuery_stable q hs]

theorem c2_witness :
    ((encodeQuery fixStableQuery).bind (decodeQueryF 20) = .ok (canonQuery fixStableQuery) ∧
      encodeQuery (canonQuery fixStableQuery) = encodeQuery fixStableQuery ∧
      (encodeQuery (canonQuery fixStableQuery)).map renderJson =
        (encodeQuery fixStableQuery).map renderJson ∧
      (stableQuery fixStableQuery = true → canonQuery fixStableQuery = fixStableQuery) ∧
      (stableQuery fixStableQuery = true →
        ∀ i opts, evalQuery (canonQuery fixStableQuery) i opts =
          evalQuery fixStableQuery i opts)) ∧
    stableQuery fixStableQuery = true :=
  ⟨c2_roundtrip fixStableQuery 20 rfl (by decide), rfl⟩

end GoEval
